import Mathlib

/-!
Verification of the `mltu` data-provider pipeline (`mltu/dataProvider.py` and
`mltu/torch/dataProvider.py`) through a shallow embedding in Lean.

Modelling conventions:
* Python values are drawn from an abstract type `V`; Python `None` is `Option.none`,
  so a nullable pipeline value is an `Option V`.
* A sample descriptor (one row of the dataset) is a pair `(primary identifier, raw label)`.
* Python lists become Lean `List`s; the cache dict becomes an association list
  (insertion happens only when the key is absent, so lookup agrees with dict lookup).
* Exceptions are modelled by `Except String`; a raised exception is `Except.error msg`.
* Randomness (`np.random.shuffle`) is modelled by passing the shuffling function
  explicitly; theorems assume only that it permutes the list.
* The trailing `.numpy()` materialisation of `process_data` is modelled by two
  abstract total functions `matData` and `matAnn` applied to the final pair.
-/

namespace Mltu

/-- A sample descriptor: `(primary identifier, raw label)`.  `DataProvider` stores the
dataset as a list of such rows; `row[0]` (`bd.1` here) is the cache key. -/
abbrev Desc (V : Type) := V × V

/-- State of `mltu.dataProvider.DataProvider` (fields `_dataset`, `_data_preprocessors`,
`_batch_size`, `_shuffle`, `_epoch`, `_augmentors`, `_transformers`, `_use_cache`,
`_step`, `_cache`, `_on_epoch_end_remove` of `__init__`, lines 45-57).  Preprocessors
may consume and produce `None` (the code only checks for `None` after the whole chain),
so they act on `Option V`; augmentors and transformers are used on non-null values. -/
structure DPState (V : Type) where
  dataset : List (Desc V)
  dataPreprocessors : List (Option V → Option V → Option V × Option V)
  batchSize : Nat
  shuffleFlag : Bool
  epoch : Nat
  augmentors : List (V → V → V × V)
  transformers : List (V → V → V × V)
  useCache : Bool
  step : Nat
  cache : List (V × (V × V))
  onEpochEndRemove : List (Desc V)
  matData : V → V
  matAnn : V → V

/-- Run the preprocessor chain: `for preprocessor in self._data_preprocessors:
data, annotation = preprocessor(data, annotation)` (lines 220-221). -/
def runPreprocessors {V : Type} (ps : List (Option V → Option V → Option V × Option V))
    (da : Option V × Option V) : Option V × Option V :=
  ps.foldl (fun p f => f p.1 p.2) da

/-- Run a chain of augmentors/transformers:
`for object in objects: data, annotation = object(data, annotation)` (lines 232-234). -/
def runStages {V : Type} (fs : List (V → V → V × V)) (da : V × V) : V × V :=
  fs.foldl (fun p f => f p.1 p.2) da

/-- Embedding of `DataProvider.process_data` (lines 214-245).  On a cache hit the deep
copy of the cached pair is, for pure values, the pair itself; the heap-level model
`processDataH` below accounts for the aliasing aspect of `copy.deepcopy`. -/
def processData {V : Type} [BEq V] (s : DPState V) (bd : Desc V) :
    (Option V × Option V) × DPState V :=
  if s.useCache && (s.cache.lookup bd.1).isSome then
    let da := (s.cache.lookup bd.1).getD (bd.1, bd.2)
    let da2 := runStages (s.augmentors ++ s.transformers) da
    ((some (s.matData da2.1), some (s.matAnn da2.2)), s)
  else
    match runPreprocessors s.dataPreprocessors (some bd.1, some bd.2) with
    | (some d, some a) =>
      let s1 := if s.useCache && !(s.cache.lookup bd.1).isSome
                then { s with cache := s.cache ++ [(bd.1, (d, a))] } else s
      let da2 := runStages (s1.augmentors ++ s1.transformers) (d, a)
      ((some (s1.matData da2.1), some (s1.matAnn da2.2)), s1)
    | _ =>
      ((none, none), { s with onEpochEndRemove := s.onEpochEndRemove ++ [bd] })

/-- The per-sample loop of `DataProvider.__getitem__` (lines 252-262): process each
descriptor, skip (log and continue) any `(None, None)` result, and collect the rest in
order into the two parallel batch lists. -/
def processLoop {V : Type} [BEq V] (s : DPState V) (batch : List (Desc V)) :
    (List V × List V) × DPState V :=
  match batch with
  | [] => (([], []), s)
  | bd :: rest =>
    let r := processData s bd
    match r.1 with
    | (some d, some a) =>
      let t := processLoop r.2 rest
      ((d :: t.1.1, a :: t.1.2), t.2)
    | _ => processLoop r.2 rest

/-- Embedding of `DataProvider.get_batch_annotations` (lines 189-207): record the step,
take the indices `[index*batch_size, index*batch_size + batch_size)` that are below the
current dataset length, and read those rows. -/
def getBatchAnns {V : Type} [Inhabited V] (s : DPState V) (i : Nat) :
    List (Desc V) × DPState V :=
  let start := i * s.batchSize
  let idxs := (List.range' start s.batchSize).filter (fun j => j < s.dataset.length)
  (idxs.map (fun j => s.dataset.getD j default), { s with step := i })

/-- Embedding of the sequential `DataProvider.__getitem__` (lines 247-264), up to the
final `np.array` stacking, which preserves list length and element order. -/
def getitemSeq {V : Type} [BEq V] [Inhabited V] (s : DPState V) (i : Nat) :
    (List V × List V) × DPState V :=
  let r := getBatchAnns s i
  processLoop r.2 r.1

/-- Embedding of `DataProvider.__len__` (lines 72-74):
`int(np.ceil(len(self._dataset) / self._batch_size))`, i.e. the exact rational ceiling
of `N / batch_size`, truncated to a non-negative integer. -/
def lengthP {V : Type} (s : DPState V) : Nat :=
  (Int.toNat ⌈(s.dataset.length : ℚ) / (s.batchSize : ℚ)⌉)

/-- A concrete provider state over `V := Nat` with the given dataset and batch size and
no pipeline stages, used to instantiate theorems on concrete inputs. -/
def mkS (ds : List (Desc Nat)) (bs : Nat) : DPState Nat :=
  { dataset := ds, dataPreprocessors := [], batchSize := bs, shuffleFlag := false,
    epoch := 1, augmentors := [], transformers := [], useCache := false, step := 0,
    cache := [], onEpochEndRemove := [], matData := id, matAnn := id }

/-- Provider state whose first preprocessor yields `(None, None)` but whose second
preprocessor maps any input (including `(None, None)`) back to `(5, 7)`. -/
def c1S : DPState Nat :=
  { mkS [(0, 0)] 4 with
    dataPreprocessors := [fun _ _ => (none, none), fun _ _ => (some 5, some 7)] }

/-- C1 is false as stated: in `c1S` the first preprocessor yields null data and null
annotation, yet `process_data` returns a non-null pair and records nothing in the
removal list, because the code checks for `None` only after the whole preprocessor
chain has run (dataProvider.py line 223). -/
theorem c1_counterexample :
    runPreprocessors (c1S.dataPreprocessors.take 1) (some 0, some 0) = (none, none) ∧
    (processData c1S (0, 0)).1 = (some 5, some 7) ∧
    (processData c1S (0, 0)).2.onEpochEndRemove = [] :=
  ⟨rfl, rfl, rfl⟩

/-- C1 (amended): on the non-cache-hit path, if the preprocessor chain's final output
has a null data or a null annotation, `process_data` appends the descriptor to the
removal list and returns the `(None, None)` sentinel, and the batch loop of
`__getitem__` skips the sample (contributing nothing to the batch) and continues with
the remaining descriptors in the post-removal state; no error is surfaced. -/
theorem c1_null_result_drops_sample {V : Type} [BEq V] (s : DPState V) (bd : Desc V)
    (rest : List (Desc V))
    (hnc : (s.useCache && (s.cache.lookup bd.1).isSome) = false)
    (hnull : (runPreprocessors s.dataPreprocessors (some bd.1, some bd.2)).1 = none ∨
             (runPreprocessors s.dataPreprocessors (some bd.1, some bd.2)).2 = none) :
    processData s bd =
      ((none, none), { s with onEpochEndRemove := s.onEpochEndRemove ++ [bd] }) ∧
    processLoop s (bd :: rest) =
      processLoop { s with onEpochEndRemove := s.onEpochEndRemove ++ [bd] } rest := by
  have h1 : processData s bd =
      ((none, none), { s with onEpochEndRemove := s.onEpochEndRemove ++ [bd] }) := by
    unfold processData
    rw [hnc]
    simp only [Bool.false_eq_true, if_false]
    rcases hpre : runPreprocessors s.dataPreprocessors (some bd.1, some bd.2) with ⟨od, oa⟩
    rw [hpre] at hnull
    cases od <;> cases oa <;> simp_all
  refine ⟨h1, ?_⟩
  simp only [processLoop, h1]

/-- Provider state with a single preprocessor that always yields `(None, None)`. -/
def c1wS : DPState Nat :=
  { mkS [(0, 0), (1, 1)] 4 with dataPreprocessors := [fun _ _ => (none, none)] }

/-- Witness for the amended C1 at a concrete state: the always-null preprocessor makes
`process_data` flag descriptor `(0, 0)` for removal and return the sentinel, and the
batch loop over `[(0, 0)]` yields an empty batch in the flagged state. -/
theorem c1_null_result_witness :
    processData c1wS (0, 0) =
      ((none, none), { c1wS with onEpochEndRemove := [(0, 0)] }) ∧
    processLoop c1wS [(0, 0)] = (([], []), { c1wS with onEpochEndRemove := [(0, 0)] }) := by
  have h := c1_null_result_drops_sample c1wS (0, 0) [] rfl (Or.inl rfl)
  exact ⟨h.1, h.2.trans rfl⟩

/-- Ceiling of a natural-number division, computed as a rational, equals the natural
formula `(n + d - 1) / d`. -/
theorem ceil_natCast_div {n d : Nat} (hd : 0 < d) :
    ⌈(n : ℚ) / (d : ℚ)⌉ = (((n + d - 1) / d : ℕ) : ℤ) := by
  have hd0 : (0 : ℚ) < (d : ℚ) := by exact_mod_cast hd
  have h1 := Nat.div_add_mod (n + d - 1) d
  have h2 := Nat.mod_lt (n + d - 1) hd
  have hA : (n + d - 1) / d * d ≤ n + d - 1 := Nat.div_mul_le_self (n + d - 1) d
  have hB : n + d - 1 < (n + d - 1) / d * d + d := @Nat.lt_div_mul_add (n + d - 1) d hd
  rw [Int.ceil_eq_iff]
  constructor
  · rw [lt_div_iff₀ hd0, sub_mul, one_mul, sub_lt_iff_lt_add]
    have hn : (n + d - 1) / d * d < n + d := by omega
    exact_mod_cast hn
  · rw [div_le_iff₀ hd0]
    have hn : n ≤ (n + d - 1) / d * d := by omega
    exact_mod_cast hn

/-- C8: for every provider with a positive batch size and a non-empty dataset,
`__len__` returns the ceiling of `current dataset size / batch_size`; the value is a
function of the state at call time, so it reflects any shrinkage of the dataset. -/
theorem c8_length_is_ceil {V : Type} (s : DPState V)
    (hbs : 0 < s.batchSize) (hne : s.dataset ≠ []) :
    lengthP s = (s.dataset.length + s.batchSize - 1) / s.batchSize := by
  unfold lengthP
  rw [ceil_natCast_div hbs]
  exact Int.toNat_natCast _

/-- Dataset of seven descriptors used to instantiate batch-arithmetic theorems. -/
def ds7 : List (Desc Nat) := [(0, 0), (1, 1), (2, 2), (3, 3), (4, 4), (5, 5), (6, 6)]

/-- Witness for C8: with batch size 4 and dataset size 7 the provider reports
ceil(7/4) = 2 batches. -/
theorem c8_length_witness :
    0 < (mkS ds7 4).batchSize ∧ (mkS ds7 4).dataset ≠ [] ∧ lengthP (mkS ds7 4) = 2 :=
  ⟨by decide, by decide, c8_length_is_ceil (mkS ds7 4) (by decide) (by decide)⟩

/-- Reading the in-bounds indices `[a, a + b)` of a list is the same as dropping `a`
elements and taking `b`. -/
theorem filter_range'_getD {α : Type} [Inhabited α] (l : List α) :
    ∀ (b a : Nat), ((List.range' a b).filter (fun j => decide (j < l.length))).map
        (fun j => l.getD j default) = (l.drop a).take b := by
  intro b
  induction b with
  | zero => intro a; simp
  | succ b ih =>
    intro a
    rw [List.range'_succ]
    by_cases h : a < l.length
    · rw [List.filter_cons_of_pos (by simpa using h), List.map_cons, ih (a + 1),
        List.drop_eq_getElem_cons h, List.take_succ_cons, List.getD_eq_getElem l default h]
    · rw [List.filter_cons_of_neg (by simpa using h), ih (a + 1),
        List.drop_eq_nil_of_le (le_of_not_lt h), List.drop_eq_nil_of_le (by omega)]
      simp

/-- C7: for a batch index below the current `__len__`, `get_batch_annotations` records
the index as the step and returns exactly the contiguous descriptor slice
`[i*batch_size, i*batch_size + batch_size)` clipped to the dataset bounds, whose length
is `min batch_size (N - i*batch_size)`. -/
theorem c7_batch_slice {V : Type} [Inhabited V] (s : DPState V) (i : Nat)
    (hi : i < lengthP s) :
    getBatchAnns s i =
      ((s.dataset.drop (i * s.batchSize)).take s.batchSize, { s with step := i }) ∧
    (getBatchAnns s i).1.length = min s.batchSize (s.dataset.length - i * s.batchSize) := by
  have h1 : getBatchAnns s i =
      ((s.dataset.drop (i * s.batchSize)).take s.batchSize, { s with step := i }) := by
    simp only [getBatchAnns, filter_range'_getD]
  refine ⟨h1, ?_⟩
  rw [h1]
  simp [Nat.min_comm]

/-- Witness for C7 at the spec's concrete scenario: batch size 3, dataset size 7,
batch index 2 resolves the slice [6, 9) clipped to [6, 7), a 1-element batch. -/
theorem c7_batch_slice_witness :
    2 < lengthP (mkS ds7 3) ∧
    getBatchAnns (mkS ds7 3) 2 = ([(6, 6)], { mkS ds7 3 with step := 2 }) ∧
    (getBatchAnns (mkS ds7 3) 2).1.length = 1 := by
  have hl : 2 < lengthP (mkS ds7 3) := by
    unfold lengthP
    rw [ceil_natCast_div (show 0 < (mkS ds7 3).batchSize by decide)]
    decide
  have h := c7_batch_slice (mkS ds7 3) 2 hl
  exact ⟨hl, h.1, h.2⟩

/-- Python `list.remove(x)` (used on line 135): delete the first element equal to `x`;
`none` models the `ValueError` raised when no element is equal to `x`. -/
def removeFirst {α : Type} [BEq α] : List α → α → Option (List α)
  | [], _ => none
  | x :: xs, d => if x == d then some xs else (removeFirst xs d).map (fun ys => x :: ys)

/-- The removal loop of `on_epoch_end` (lines 133-135): remove each flagged descriptor
in turn, propagating the `ValueError` of `list.remove` if one is absent. -/
def applyRemovals {α : Type} [BEq α] : List α → List α → Except String (List α)
  | ds, [] => .ok ds
  | ds, r :: rs =>
    match removeFirst ds r with
    | none => .error ("ValueError: list.remove(x): x not in list")
    | some ds2 => applyRemovals ds2 rs

/-- Embedding of `DataProvider.on_epoch_end` (lines 126-136): increment the epoch,
shuffle if enabled (the random reordering is passed in as `shuffler`), then delete each
descriptor flagged for removal and clear the removal list.  The `ValueError` raised by
`list.remove` on an absent entry is the `Except.error` case. -/
def onEpochEnd {V : Type} [BEq (Desc V)] (s : DPState V)
    (shuffler : List (Desc V) → List (Desc V)) : Except String (DPState V) :=
  let ds := if s.shuffleFlag then shuffler s.dataset else s.dataset
  match applyRemovals ds s.onEpochEndRemove with
  | .error e => .error e
  | .ok ds2 =>
    .ok { s with epoch := s.epoch + 1, dataset := ds2, onEpochEndRemove := [] }

/-- Removing the first occurrence of `r` decrements the count of `r` by one and leaves
all other counts unchanged. -/
theorem removeFirst_count {α : Type} [BEq α] [LawfulBEq α] (e : α) :
    ∀ (xs ys : List α) (r : α), removeFirst xs r = some ys →
      ys.count e + (if r == e then 1 else 0) = xs.count e := by
  intro xs
  induction xs with
  | nil => intro ys r h; simp [removeFirst] at h
  | cons x xs ih =>
    intro ys r h
    rw [removeFirst] at h
    by_cases hx : (x == r) = true
    · rw [if_pos hx] at h
      cases h
      have hxr : x = r := eq_of_beq hx
      rw [List.count_cons, hxr]
    · rw [if_neg hx] at h
      rcases Option.map_eq_some'.mp h with ⟨ys1, hys1, hcons⟩
      subst hcons
      have h1 := ih ys1 r hys1
      rw [List.count_cons, List.count_cons]
      omega

/-- Running the whole removal loop successfully subtracts, for every value, the number
of flagged occurrences from its count in the dataset. -/
theorem applyRemovals_count {α : Type} [BEq α] [LawfulBEq α] (e : α) :
    ∀ (rs ds ds2 : List α), applyRemovals ds rs = .ok ds2 →
      ds2.count e + rs.count e = ds.count e := by
  intro rs
  induction rs with
  | nil =>
    intro ds ds2 h
    rw [applyRemovals] at h
    cases h
    simp
  | cons r rs ih =>
    intro ds ds2 h
    rw [applyRemovals] at h
    rcases hrf : removeFirst ds r with _ | ds1
    · rw [hrf] at h; cases h
    · rw [hrf] at h
      have h1 := removeFirst_count e ds ds1 r hrf
      have h2 := ih ds1 ds2 h
      rw [List.count_cons]
      by_cases hre : (r == e) = true <;> simp only [hre, if_true, if_false] at h1 ⊢ <;> omega

/-- Provider state holding the single descriptor `(1, 2)` that was flagged for removal
twice, as happens when the same bad sample is processed twice in one epoch. -/
def c5S : DPState Nat :=
  { mkS [(1, 2)] 4 with onEpochEndRemove := [(1, 2), (1, 2)] }

/-- C5 is false as stated: with descriptor `(1, 2)` double-flagged and present once,
`on_epoch_end` does not fail silently on the second, already-removed entry — it raises
`ValueError`, because `list.remove` (line 135) raises on a missing value. -/
theorem c5_counterexample :
    onEpochEnd c5S id = .error ("ValueError: list.remove(x): x not in list") := rfl

/-- C5 (amended): `on_epoch_end` increments the epoch by one, reorders the dataset by
the injected shuffle when enabled, deletes the first occurrence of each flagged
descriptor and clears the removal list — but it raises `ValueError` (rather than
failing silently) if an entry is already gone.  When the removal loop succeeds and a
flagged descriptor was flagged at least as often as it occurs, it is absent from the
dataset afterwards. -/
theorem c5_on_epoch_end {V : Type} [BEq (Desc V)] [LawfulBEq (Desc V)] (s : DPState V)
    (shuffler : List (Desc V) → List (Desc V)) (d : Desc V) (ds2 : List (Desc V))
    (hperm : (shuffler s.dataset).Perm s.dataset)
    (hok : applyRemovals (if s.shuffleFlag then shuffler s.dataset else s.dataset)
            s.onEpochEndRemove = .ok ds2)
    (hd : d ∈ s.onEpochEndRemove)
    (hcnt : s.dataset.count d ≤ s.onEpochEndRemove.count d) :
    onEpochEnd s shuffler =
      .ok { s with epoch := s.epoch + 1, dataset := ds2, onEpochEndRemove := [] } ∧
    ds2.count d + s.onEpochEndRemove.count d = s.dataset.count d ∧
    d ∉ ds2 := by
  have hshuf : (if s.shuffleFlag then shuffler s.dataset else s.dataset).count d
      = s.dataset.count d := by
    by_cases h : s.shuffleFlag = true
    · rw [if_pos h]; exact hperm.countP_eq _
    · rw [if_neg h]
  have hc := applyRemovals_count d s.onEpochEndRemove _ ds2 hok
  rw [hshuf] at hc
  refine ⟨?_, hc, ?_⟩
  · simp only [onEpochEnd]
    rw [hok]
  · have h0 : ds2.count d = 0 := by omega
    exact List.count_eq_zero.mp h0

/-- Provider state with dataset `[(1, 2), (3, 4)]` where `(1, 2)` was flagged once. -/
def c5wS : DPState Nat :=
  { mkS [(1, 2), (3, 4)] 4 with onEpochEndRemove := [(1, 2)] }

/-- Witness for the amended C5: the flagged descriptor `(1, 2)` is deleted, the epoch
becomes 2, the removal list is cleared, and `(1, 2)` is absent afterwards. -/
theorem c5_on_epoch_end_witness :
    (id c5wS.dataset).Perm c5wS.dataset ∧
    applyRemovals (if c5wS.shuffleFlag then id c5wS.dataset else c5wS.dataset)
      c5wS.onEpochEndRemove = .ok [(3, 4)] ∧
    (1, 2) ∈ c5wS.onEpochEndRemove ∧
    c5wS.dataset.count (1, 2) ≤ c5wS.onEpochEndRemove.count (1, 2) ∧
    (onEpochEnd c5wS id =
      .ok { c5wS with epoch := 2, dataset := [(3, 4)], onEpochEndRemove := [] } ∧
     ([(3, 4)] : List (Desc Nat)).count (1, 2) + c5wS.onEpochEndRemove.count (1, 2)
       = c5wS.dataset.count (1, 2) ∧
     (1, 2) ∉ ([(3, 4)] : List (Desc Nat))) := by
  have h := c5_on_epoch_end c5wS id (1, 2) [(3, 4)]
    (List.Perm.refl _) rfl (by decide) (by decide)
  exact ⟨List.Perm.refl _, rfl, by decide, by decide, h⟩

/-- Embedding of `DataProvider.split` (lines 159-177): optionally shuffle the dataset
(the random in-place reordering, a documented side effect on the original provider, is
injected as `shuffler`), deep-copy the provider twice, and give the first copy the
first `int(len(dataset) * split)` descriptors and the second copy the rest.  Python
`int()` on the non-negative product is `Int.toNat ∘ Int.floor`. -/
def splitP {V : Type} (s : DPState V) (r : ℚ) (sh : Bool)
    (shuffler : List (Desc V) → List (Desc V)) : DPState V × DPState V :=
  let ds := if sh then shuffler s.dataset else s.dataset
  let k := (Int.toNat ⌊(ds.length : ℚ) * r⌋)
  ({ s with dataset := ds.take k }, { s with dataset := ds.drop k })

/-- Provider state whose dataset holds the descriptor `(0, 0)` twice. -/
def c9S : DPState Nat := mkS [(0, 0), (0, 0)] 4

/-- C9 is false as stated: on a dataset holding the same descriptor twice, ratio 1/2
gives the two halves `[(0, 0)]` and `[(0, 0)]`, which are not disjoint. -/
theorem c9_counterexample :
    (splitP c9S (1 / 2) false id).1.dataset = [(0, 0)] ∧
    (splitP c9S (1 / 2) false id).2.dataset = [(0, 0)] ∧
    ¬ ((splitP c9S (1 / 2) false id).1.dataset).Disjoint
        ((splitP c9S (1 / 2) false id).2.dataset) := by
  have hk : Int.toNat ⌊((List.length (c9S.dataset) : ℚ)) * (1 / 2)⌋ = 1 := by
    have h2 : ((List.length (c9S.dataset) : ℚ)) * (1 / 2) = ((1 : ℤ) : ℚ) := by
      norm_num [c9S, mkS]
    rw [h2, Int.floor_intCast]
    rfl
  have hsp : splitP c9S (1 / 2) false id =
      ({ c9S with dataset := [(0, 0)] }, { c9S with dataset := [(0, 0)] }) := by
    simp only [splitP, Bool.false_eq_true, if_false, id_eq, hk]
    rfl
  rw [hsp]
  refine ⟨rfl, rfl, fun h => ?_⟩
  exact h (List.mem_singleton.mpr rfl) (List.mem_singleton.mpr rfl)

/-- C9 (amended): for any split ratio in (0,1), the two returned providers partition
the (possibly shuffled) dataset, so their dataset lengths sum to the original length
and, provided the dataset has no duplicate descriptors, their datasets are disjoint;
both carry the original provider's configuration. -/
theorem c9_split_partition {V : Type} (s : DPState V) (r : ℚ) (sh : Bool)
    (shuffler : List (Desc V) → List (Desc V))
    (h0 : 0 < r) (h1 : r < 1)
    (hperm : (shuffler s.dataset).Perm s.dataset)
    (hnd : s.dataset.Nodup) :
    (splitP s r sh shuffler).1.dataset.length + (splitP s r sh shuffler).2.dataset.length
      = s.dataset.length ∧
    ((splitP s r sh shuffler).1.dataset).Disjoint ((splitP s r sh shuffler).2.dataset) ∧
    (splitP s r sh shuffler).1.batchSize = s.batchSize ∧
    (splitP s r sh shuffler).2.batchSize = s.batchSize ∧
    (splitP s r sh shuffler).1.shuffleFlag = s.shuffleFlag ∧
    (splitP s r sh shuffler).2.shuffleFlag = s.shuffleFlag ∧
    (splitP s r sh shuffler).1.useCache = s.useCache ∧
    (splitP s r sh shuffler).2.useCache = s.useCache ∧
    (splitP s r sh shuffler).1.dataPreprocessors = s.dataPreprocessors ∧
    (splitP s r sh shuffler).2.dataPreprocessors = s.dataPreprocessors ∧
    (splitP s r sh shuffler).1.augmentors = s.augmentors ∧
    (splitP s r sh shuffler).2.augmentors = s.augmentors ∧
    (splitP s r sh shuffler).1.transformers = s.transformers ∧
    (splitP s r sh shuffler).2.transformers = s.transformers := by
  have hlen : (if sh then shuffler s.dataset else s.dataset).length = s.dataset.length := by
    by_cases h : sh = true
    · rw [if_pos h]; exact hperm.length_eq
    · rw [if_neg h]
  have hnd2 : (if sh then shuffler s.dataset else s.dataset).Nodup := by
    by_cases h : sh = true
    · rw [if_pos h]; exact (hperm.nodup_iff).mpr hnd
    · rw [if_neg h]; exact hnd
  refine ⟨?_, ?_, rfl, rfl, rfl, rfl, rfl, rfl, rfl, rfl, rfl, rfl, rfl, rfl⟩
  · simp only [splitP, List.length_take, List.length_drop, hlen]
    omega
  · simp only [splitP]
    have hsplit := List.take_append_drop
      (Int.toNat ⌊((if sh then shuffler s.dataset else s.dataset).length : ℚ) * r⌋)
      (if sh then shuffler s.dataset else s.dataset)
    have := List.nodup_append.mp (by rw [hsplit]; exact hnd2)
    exact this.2.2

/-- Provider state with three distinct descriptors. -/
def c9wS : DPState Nat := mkS [(0, 0), (1, 1), (2, 2)] 4

/-- Witness for the amended C9 at ratio 1/2 on three distinct descriptors. -/
theorem c9_split_partition_witness :
    (0 : ℚ) < 1 / 2 ∧ (1 / 2 : ℚ) < 1 ∧
    (id c9wS.dataset).Perm c9wS.dataset ∧ c9wS.dataset.Nodup ∧
    ((splitP c9wS (1 / 2) false id).1.dataset.length
        + (splitP c9wS (1 / 2) false id).2.dataset.length = c9wS.dataset.length ∧
     ((splitP c9wS (1 / 2) false id).1.dataset).Disjoint
        ((splitP c9wS (1 / 2) false id).2.dataset) ∧
     (splitP c9wS (1 / 2) false id).1.batchSize = c9wS.batchSize ∧
     (splitP c9wS (1 / 2) false id).2.batchSize = c9wS.batchSize) := by
  have h := c9_split_partition c9wS (1 / 2) false id
    (by norm_num) (by norm_num) (List.Perm.refl _) (by decide)
  exact ⟨by norm_num, by norm_num, List.Perm.refl _, by decide,
    h.1, h.2.1, h.2.2.1, h.2.2.2.1⟩

/-- A candidate stage object handed to the `augmentors`/`transformers` property
setters; Python `isinstance(x, Augmentor)` / `isinstance(x, Transformer)` checks
become variant tags. -/
inductive PipeObj (V : Type)
  | augmentorObj (f : V → V → V × V)
  | transformerObj (f : V → V → V × V)
  | otherObj

/-- Whether the object is an instance of the registered `Augmentor` class. -/
def PipeObj.isAug {V : Type} : PipeObj V → Bool
  | .augmentorObj _ => true
  | _ => false

/-- Whether the object is an instance of the registered `Transformer` class. -/
def PipeObj.isTrans {V : Type} : PipeObj V → Bool
  | .transformerObj _ => true
  | _ => false

/-- Embedding of the `augmentors` property setter (dataProvider.py lines 81-94):
iterate over the supplied list; append each `Augmentor` instance to the current list
(starting a fresh list if the current value were `None`); for each non-conforming
element log one warning (counted in the second component) and drop it. -/
def augmentorsSetter {V : Type} (cur : Option (List (PipeObj V))) :
    List (PipeObj V) → Option (List (PipeObj V)) × Nat
  | [] => (cur, 0)
  | a :: xs =>
    if a.isAug then
      (match cur with
        | some l => augmentorsSetter (some (l ++ [a])) xs
        | none => augmentorsSetter (some [a]) xs)
    else
      let r := augmentorsSetter cur xs
      (r.1, r.2 + 1)

/-- Embedding of the `transformers` property setter (dataProvider.py lines 101-114),
identical to the augmentors setter with the `Transformer` instance check. -/
def transformersSetter {V : Type} (cur : Option (List (PipeObj V))) :
    List (PipeObj V) → Option (List (PipeObj V)) × Nat
  | [] => (cur, 0)
  | a :: xs =>
    if a.isTrans then
      (match cur with
        | some l => transformersSetter (some (l ++ [a])) xs
        | none => transformersSetter (some [a]) xs)
    else
      let r := transformersSetter cur xs
      (r.1, r.2 + 1)

/-- The augmentors setter on an existing list appends exactly the conforming elements
and warns once per non-conforming element. -/
theorem augmentorsSetter_some {V : Type} :
    ∀ (xs l : List (PipeObj V)),
      augmentorsSetter (some l) xs
        = (some (l ++ xs.filter PipeObj.isAug),
           (xs.filter (fun a => !a.isAug)).length) := by
  intro xs
  induction xs with
  | nil => intro l; simp [augmentorsSetter]
  | cons a xs ih =>
    intro l
    by_cases h : a.isAug = true <;>
      simp [augmentorsSetter, h, ih, List.filter_cons]

/-- The transformers setter on an existing list appends exactly the conforming
elements and warns once per non-conforming element. -/
theorem transformersSetter_some {V : Type} :
    ∀ (xs l : List (PipeObj V)),
      transformersSetter (some l) xs
        = (some (l ++ xs.filter PipeObj.isTrans),
           (xs.filter (fun a => !a.isTrans)).length) := by
  intro xs
  induction xs with
  | nil => intro l; simp [transformersSetter]
  | cons a xs ih =>
    intro l
    by_cases h : a.isTrans = true <;>
      simp [transformersSetter, h, ih, List.filter_cons]

/-- C10: assigning a list to the augmentors (resp. transformers) property appends each
element that is an instance of the registered Augmentor (resp. Transformer) variant to
the provider's existing stage list — the previously registered stages `l` stay as the
list's unaltered head, so nothing is replaced — and each non-conforming element
produces one warning and is dropped without any failure (the setter is total). -/
theorem c10_setters_append {V : Type} (l xs : List (PipeObj V)) :
    augmentorsSetter (some l) xs
      = (some (l ++ xs.filter PipeObj.isAug),
         (xs.filter (fun a => !a.isAug)).length) ∧
    transformersSetter (some l) xs
      = (some (l ++ xs.filter PipeObj.isTrans),
         (xs.filter (fun a => !a.isTrans)).length) :=
  ⟨augmentorsSetter_some xs l, transformersSetter_some xs l⟩

/-- Completion log of the worker pool: `sched` is the order in which workers finish
the per-sample tasks (any permutation of the input indices); each completion records
the input index it computes together with its result. -/
def completionLog {α β : Type} [Inhabited α] (f : α → β) (xs : List α)
    (sched : List Nat) : List (Nat × β) :=
  sched.map (fun i => (i, f (xs.getD i default)))

/-- Model of `ThreadExecutor.__call__` (torch/dataProvider.py lines 19-23):
`concurrent.futures.Executor.map` yields the per-element results in input-index order
regardless of the completion order, i.e. it joins the completion log by input index. -/
def executorMap {α β : Type} [Inhabited α] (f : α → β) (xs : List α)
    (sched : List Nat) : List β :=
  (List.range xs.length).filterMap (fun i => (completionLog f xs sched).lookup i)

/-- The per-sample join loop of the concurrent `__getitem__` (lines 85-90): skip
`(None, None)` sentinels, collect the remaining results in order into the two
parallel batch lists. -/
def joinLoop {V : Type} : List (Option V × Option V) → List V × List V
  | [] => ([], [])
  | da :: t =>
    match da with
    | (some d, some a) => let r := joinLoop t; (d :: r.1, a :: r.2)
    | _ => joinLoop t

/-- Embedding of the concurrent `DataProvider.__getitem__` (lines 71-98): resolve the
descriptor slice, dispatch the per-sample processing function `f` (the role of
`self.process_data`) across the pool with completion order `sched`, join, then apply
the configured batch postprocessors in registration order.  The `np.array` stacking of
the no-postprocessor branch preserves list order and is not modelled. -/
def getitemPooled {V : Type} [Inhabited V] (f : Desc V → Option V × Option V)
    (pps : List (List V × List V → List V × List V)) (s : DPState V) (i : Nat)
    (sched : List Nat) : List V × List V :=
  let batch := (getBatchAnns s i).1
  pps.foldl (fun p g => g p) (joinLoop (executorMap f batch sched))

/-- Looking up an index that occurs in the schedule finds its per-sample result. -/
theorem completionLog_lookup {α β : Type} [Inhabited α] (f : α → β) (xs : List α) :
    ∀ (sched : List Nat) (i : Nat), i ∈ sched →
      (completionLog f xs sched).lookup i = some (f (xs.getD i default)) := by
  intro sched
  induction sched with
  | nil => intro i h; cases h
  | cons j t ih =>
    intro i h
    rcases List.mem_cons.mp h with h1 | h2
    · subst h1
      simp [completionLog, List.lookup]
    · by_cases hij : (i == j) = true
      · have hj : i = j := eq_of_beq hij
        subst hj
        simp [completionLog, List.lookup]
      · simpa [completionLog, List.lookup, hij] using ih i h2

/-- Reading every index of a list in order through `getD` is just mapping over it. -/
theorem map_getD_range {α β : Type} [Inhabited α] (f : α → β) :
    ∀ (xs : List α),
      (List.range xs.length).map (fun i => f (xs.getD i default)) = xs.map f := by
  intro xs
  induction xs with
  | nil => simp
  | cons x xs ih =>
    rw [List.length_cons, List.range_succ_eq_map, List.map_cons, List.map_map]
    simp only [List.getD_cons_zero, Function.comp_def, List.getD_cons_succ]
    rw [ih, List.map_cons]

/-- For any completion order that is a permutation of the input indices, the executor
map returns exactly the in-order per-element results. -/
theorem executorMap_perm {α β : Type} [Inhabited α] (f : α → β) (xs : List α)
    (sched : List Nat) (hs : sched.Perm (List.range xs.length)) :
    executorMap f xs sched = xs.map f := by
  unfold executorMap
  have hcg : ∀ i ∈ List.range xs.length,
      (completionLog f xs sched).lookup i = some (f (xs.getD i default)) := by
    intro i hi
    exact completionLog_lookup f xs sched i (hs.mem_iff.mpr hi)
  calc (List.range xs.length).filterMap (fun i => (completionLog f xs sched).lookup i)
      = (List.range xs.length).filterMap (fun i => some (f (xs.getD i default))) :=
        List.filterMap_congr hcg
    _ = (List.range xs.length).map (fun i => f (xs.getD i default)) :=
        List.filterMap_eq_map _ ▸ rfl
    _ = xs.map f := map_getD_range f xs

/-- The join loop over in-order per-sample results keeps, in input order, exactly the
non-sentinel data and their aligned labels. -/
theorem joinLoop_map {V : Type} (f : Desc V → Option V × Option V) :
    ∀ (l : List (Desc V)),
      joinLoop (l.map f)
        = (l.filterMap (fun b =>
              match f b with | (some d, some _) => some d | _ => none),
           l.filterMap (fun b =>
              match f b with | (some _, some a) => some a | _ => none)) := by
  intro l
  induction l with
  | nil => rfl
  | cons b l ih =>
    rw [List.map_cons]
    rcases hfb : f b with ⟨od, oa⟩
    rcases od with _ | d <;> rcases oa with _ | a <;>
      simp [joinLoop, List.filterMap_cons, hfb, ih]

/-- C3: for the pooled assembler, for any permutation of per-sample completion times
among the workers, the returned batch equals the one assembled from the per-sample
results taken in input-slice order: null-sentinel samples are skipped and the relative
order of the rest (and the data/label alignment) is exactly that of the descriptor
slice, independent of `sched`. -/
theorem c3_pooled_order {V : Type} [Inhabited V] (f : Desc V → Option V × Option V)
    (pps : List (List V × List V → List V × List V)) (s : DPState V) (i : Nat)
    (sched : List Nat)
    (hs : sched.Perm (List.range (getBatchAnns s i).1.length)) :
    getitemPooled f pps s i sched
      = pps.foldl (fun p g => g p)
          (((getBatchAnns s i).1).filterMap (fun b =>
              match f b with | (some d, some _) => some d | _ => none),
           ((getBatchAnns s i).1).filterMap (fun b =>
              match f b with | (some _, some a) => some a | _ => none)) := by
  simp only [getitemPooled]
  rw [executorMap_perm f _ sched hs, joinLoop_map]

/-- Descriptor slice and per-sample function for the C3 witness: the middle sample of
the three-element batch yields the null sentinel. -/
def c3wF : Desc Nat → Option Nat × Option Nat :=
  fun b => if b.1 = 1 then (none, none) else (some b.1, some b.2)

/-- Provider state for the C3 witness. -/
def c3wS : DPState Nat := mkS [(0, 10), (1, 11), (2, 12)] 3

/-- Witness for C3: with completion order [2, 0, 1] (a permutation of the three sample
indices), the pooled assembler still returns the slice-ordered batch ([0, 2], [10, 12])
with the null-sentinel middle sample skipped. -/
theorem c3_pooled_order_witness :
    ([2, 0, 1] : List Nat).Perm (List.range (getBatchAnns c3wS 0).1.length) ∧
    getitemPooled c3wF [] c3wS 0 [2, 0, 1] = ([0, 2], [10, 12]) := by
  have hp : ([2, 0, 1] : List Nat).Perm (List.range (getBatchAnns c3wS 0).1.length) := by
    decide
  have h := c3_pooled_order c3wF [] c3wS 0 [2, 0, 1] hp
  exact ⟨hp, h.trans rfl⟩

/-- Keyword parameters accepted by the base `DataProvider.__init__`
(mltu/dataProvider.py lines 16-29). -/
def baseInitKeywords : List String :=
  ["dataset", "data_preprocessors", "batch_size", "shuffle", "initial_epoch",
   "augmentors", "transformers", "skip_validation", "limit", "use_cache", "log_level"]

/-- Keyword arguments passed by the torch `DataProvider.__init__` to
`super().__init__` (mltu/torch/dataProvider.py lines 61-63). -/
def torchSuperKeywords : List String :=
  ["dataset", "data_preprocessors", "batch_size", "shuffle", "initial_epoch",
   "augmentors", "transformers", "batch_postprocessors", "skip_validation", "limit",
   "use_cache"]

/-- Python call semantics for keyword arguments: the call raises `TypeError` when a
passed keyword is not among the callee's parameters. -/
def pyKeywordCall (accepted passed : List String) : Except String Unit :=
  match passed.find? (fun k => !(accepted.contains k)) with
  | some k => .error ("TypeError: __init__ got an unexpected keyword argument " ++ k)
  | none => .ok ()

/-- Modeled outcome of constructing the torch (concurrent) provider: its `__init__`
body begins with the `super().__init__` call forwarding `torchSuperKeywords` to the
base constructor. -/
def torchProviderInit : Except String Unit :=
  pyKeywordCall baseInitKeywords torchSuperKeywords

/-- C4: the concurrent provider's constructor always fails: the torch `__init__`
forwards the keyword `batch_postprocessors` to the base `__init__`, whose parameter
list does not contain it, so Python raises `TypeError` before any provider exists and
no `getBatch` call can ever apply the batch postprocessors (their intended in-order
application after the join is the `pps` fold of `getitemPooled`). -/
theorem c4_construction_type_error :
    torchProviderInit =
      .error ("TypeError: __init__ got an unexpected keyword argument batch_postprocessors") ∧
    "batch_postprocessors" ∈ torchSuperKeywords ∧
    "batch_postprocessors" ∉ baseInitKeywords :=
  ⟨rfl, by decide, by decide⟩

/-- Python dataset argument of `DataProvider.validate`: a path string, a list of rows,
a pandas DataFrame (its `.values.tolist()` row list is what matters), or anything
else. -/
inductive PyDataset (V : Type)
  | pathStr (p : V)
  | rows (l : List (Desc V))
  | frame (l : List (Desc V))
  | otherObj

/-- Embedding of `DataProvider.validate_list_dataset` (lines 138-144): keep, in order,
the rows whose primary identifier exists on the filesystem `fs`; raise
`FileNotFoundError` when none survive. -/
def validateListDataset {V : Type} (fs : V → Bool) (l : List (Desc V)) :
    Except String (List (Desc V)) :=
  let vd := l.filter (fun row => fs row.1)
  if vd.isEmpty then .error ("FileNotFoundError: No valid data found in dataset.")
  else .ok vd

/-- Embedding of `DataProvider.validate` (lines 146-157).  A string that exists is
returned unchanged; a string that does not exist falls off the end of the `if` chain,
so Python implicitly returns `None` (`Option.none` here); lists and dataframes are
filtered by `validate_list_dataset`; any other type raises `TypeError`. -/
def validate {V : Type} (fs : V → Bool) :
    PyDataset V → Except String (Option (PyDataset V))
  | .pathStr p => if fs p then .ok (some (.pathStr p)) else .ok none
  | .rows l => (validateListDataset fs l).map (fun v => some (.rows v))
  | .frame l => (validateListDataset fs l).map (fun v => some (.rows v))
  | .otherObj => .error ("TypeError: Dataset must be a path, list or pandas dataframe.")

/-- Number of parameters of `DataProvider.validate` after `self` (line 146). -/
def validateParamCount : Nat := 2

/-- Number of positional arguments after `self` in the constructor's call
`self.validate(dataset, skip_validation, limit)` (line 64). -/
def validateCallArgCount : Nat := 3

/-- Modeled validation step of `DataProvider.__init__` (lines 62-66): when
`skip_validation` is false, the constructor calls `validate` with one positional
argument too many, which Python rejects with `TypeError` before `validate` runs. -/
def initValidation {V : Type} (fs : V → Bool) (skipValidation : Bool)
    (dsa : PyDataset V) : Except String (Option (PyDataset V)) :=
  if skipValidation then .ok (some dsa)
  else if validateCallArgCount ≤ validateParamCount then validate fs dsa
  else .error ("TypeError: validate() takes 3 positional arguments but 4 were given")

/-- Direct behaviour of `validate` on list inputs: the survivors are the rows whose
primary identifier exists, kept in order, and `FileNotFoundError` is raised when no
row survives. -/
theorem validate_rows_filter {V : Type} (fs : V → Bool) (l : List (Desc V)) :
    validate fs (.rows l) =
      (if (l.filter (fun row => fs row.1)).isEmpty
       then .error ("FileNotFoundError: No valid data found in dataset.")
       else .ok (some (.rows (l.filter (fun row => fs row.1))))) := by
  simp only [validate, validateListDataset]
  by_cases h : (l.filter (fun row => fs row.1)).isEmpty = true <;>
    simp [h, Except.map]

/-- C6: on the code, validation-enabled construction never reaches `validate`: the
constructor passes three positional arguments to the two-parameter `validate`, so
every construction with `skip_validation=False` raises `TypeError`; and `validate`
itself, called directly on a path string that does not exist, returns `None` rather
than the unchanged string. -/
theorem c6_validation_construction_bug :
    (∀ (fs : Nat → Bool) (dsa : PyDataset Nat),
       initValidation fs false dsa =
         .error ("TypeError: validate() takes 3 positional arguments but 4 were given")) ∧
    validate (fun _ => false) (PyDataset.pathStr (0 : Nat)) = .ok none := by
  exact ⟨fun fs dsa => rfl, rfl⟩

/-- A heap of Python objects: cell `a` holds the object at address `a`.  In-place
mutation of an object is a write to its address; `copy.deepcopy` materialises fresh
cells holding the same values. -/
structure Heap (V : Type) where
  cells : List V

/-- Dereference an address. -/
def Heap.read {V : Type} [Inhabited V] (h : Heap V) (a : Nat) : V :=
  h.cells.getD a default

/-- Mutate the object at address `a` in place. -/
def Heap.write {V : Type} (h : Heap V) (a : Nat) (v : V) : Heap V :=
  ⟨h.cells.set a v⟩

/-- Cache-and-heap state for the aliasing-aware model of `process_data`: the Sample
Cache maps a primary identifier to the addresses of its cached (data, annotation)
objects. -/
structure CState (V : Type) where
  cache : List (V × (Nat × Nat))
  heap : Heap V

/-- Every cached address points into the heap. -/
def CacheValid {V : Type} (s : CState V) : Prop :=
  ∀ p ∈ s.cache, p.2.1 < s.heap.cells.length ∧ p.2.2 < s.heap.cells.length

/-- Heap-level model of the caching part of `DataProvider.process_data` (lines
216-229), with caching enabled.  On a cache hit (`batch_data[0] in self._cache`),
`copy.deepcopy(self._cache[batch_data[0]])` creates two fresh objects holding the
cached values (appended at the end of the heap) and their addresses are returned.  On
a miss, the preprocessed pair (the pure `prep` on the descriptor, assumed non-null
here) is allocated, then `(copy.deepcopy(data), copy.deepcopy(annotation))` — two
further fresh cells holding the same values — is stored in the cache before
augmentation, and the original (uncopied) pair's addresses are returned.  In-place
augmentors, transformers and callers mutate the returned addresses via
`Heap.write`. -/
def processDataH {V : Type} [BEq V] [Inhabited V] (prep : V → V → V × V)
    (s : CState V) (bd : Desc V) : (Nat × Nat) × CState V :=
  match s.cache.lookup bd.1 with
  | some ab =>
    let base := s.heap.cells.length
    ((base, base + 1),
     { s with heap := ⟨s.heap.cells ++ [s.heap.read ab.1, s.heap.read ab.2]⟩ })
  | none =>
    let dv := prep bd.1 bd.2
    let base := s.heap.cells.length
    ((base, base + 1),
     { cache := s.cache ++ [(bd.1, (base + 2, base + 3))],
       heap := ⟨s.heap.cells ++ [dv.1, dv.2, dv.1, dv.2]⟩ })

/-- A successful association-list lookup comes from a member entry. -/
theorem lookup_mem {α β : Type} [BEq α] [LawfulBEq α] :
    ∀ (l : List (α × β)) (k : α) (b : β), l.lookup k = some b → (k, b) ∈ l := by
  intro l
  induction l with
  | nil => intro k b h; simp [List.lookup] at h
  | cons q t ih =>
    intro k b h
    rcases q with ⟨k1, b1⟩
    by_cases hk : (k == k1) = true
    · have hkk : k = k1 := eq_of_beq hk
      subst hkk
      simp [List.lookup] at h
      subst h
      exact List.mem_cons_self _ _
    · simp only [List.lookup, hk] at h
      exact List.mem_cons_of_mem _ (ih k b h)

/-- Reading an index below the length of the left part of an append stays left. -/
theorem getD_append_lt {V : Type} [Inhabited V] (l l2 : List V) (a : Nat)
    (h : a < l.length) : (l ++ l2).getD a default = l.getD a default :=
  List.getD_append l l2 default a h

/-- Reading offset `k` past the left part of an append reads the right part. -/
theorem getD_append_add {V : Type} [Inhabited V] (l l2 : List V) (k : Nat) :
    (l ++ l2).getD (l.length + k) default = l2.getD k default := by
  rw [List.getD_eq_getElem?_getD, List.getElem?_append_right (Nat.le_add_right _ _),
    Nat.add_sub_cancel_left, ← List.getD_eq_getElem?_getD]

/-- Writing one address does not change what another address holds. -/
theorem read_write_ne {V : Type} [Inhabited V] (h : Heap V) (a b : Nat) (v : V)
    (hne : a ≠ b) : (h.write a v).read b = h.read b := by
  simp only [Heap.write, Heap.read]
  rw [List.getD_eq_getElem?_getD, List.getElem?_set_ne hne, ← List.getD_eq_getElem?_getD]

/-- C2: with caching enabled, `process_data` returns fresh addresses disjoint from
every cache entry of the resulting state, and cache validity is preserved (so the same
holds again at every later call): a cache hit returns a deep copy of the cached pair —
the cached values at two fresh addresses, the cache untouched; a cache miss stores a
deep copy of the preprocessed pair at fresh addresses before augmentation.
Consequently any in-place mutation of the two returned objects (the writes below)
leaves the value of every cached entry unchanged. -/
theorem c2_cache_isolation {V : Type} [BEq V] [LawfulBEq V] [Inhabited V]
    (prep : V → V → V × V) (s : CState V) (bd : Desc V)
    (p : V × (Nat × Nat)) (v w : V) (ab : Nat × Nat)
    (hv : CacheValid s)
    (hp : p ∈ (processDataH prep s bd).2.cache) :
    CacheValid (processDataH prep s bd).2 ∧
    (p.2.1 ≠ (processDataH prep s bd).1.1 ∧ p.2.1 ≠ (processDataH prep s bd).1.2 ∧
     p.2.2 ≠ (processDataH prep s bd).1.1 ∧ p.2.2 ≠ (processDataH prep s bd).1.2) ∧
    ((((processDataH prep s bd).2.heap.write ((processDataH prep s bd).1.1) v).write
        ((processDataH prep s bd).1.2) w).read p.2.1
       = (processDataH prep s bd).2.heap.read p.2.1 ∧
     (((processDataH prep s bd).2.heap.write ((processDataH prep s bd).1.1) v).write
        ((processDataH prep s bd).1.2) w).read p.2.2
       = (processDataH prep s bd).2.heap.read p.2.2) ∧
    (s.cache.lookup bd.1 = some ab →
      ((processDataH prep s bd).2.cache = s.cache ∧
       (processDataH prep s bd).2.heap.read ((processDataH prep s bd).1.1)
         = s.heap.read ab.1 ∧
       (processDataH prep s bd).2.heap.read ((processDataH prep s bd).1.2)
         = s.heap.read ab.2)) ∧
    (s.cache.lookup bd.1 = none →
      ((processDataH prep s bd).2.cache
         = s.cache ++ [(bd.1, (s.heap.cells.length + 2, s.heap.cells.length + 3))] ∧
       (processDataH prep s bd).2.heap.read (s.heap.cells.length + 2)
         = (prep bd.1 bd.2).1 ∧
       (processDataH prep s bd).2.heap.read (s.heap.cells.length + 3)
         = (prep bd.1 bd.2).2 ∧
       (processDataH prep s bd).2.heap.read ((processDataH prep s bd).1.1)
         = (prep bd.1 bd.2).1 ∧
       (processDataH prep s bd).2.heap.read ((processDataH prep s bd).1.2)
         = (prep bd.1 bd.2).2)) := by
  rcases hlk : s.cache.lookup bd.1 with _ | ab0
  · -- cache miss
    have hr : processDataH prep s bd =
        ((s.heap.cells.length, s.heap.cells.length + 1),
         { cache := s.cache ++
             [(bd.1, (s.heap.cells.length + 2, s.heap.cells.length + 3))],
           heap := ⟨s.heap.cells ++ [(prep bd.1 bd.2).1, (prep bd.1 bd.2).2,
                     (prep bd.1 bd.2).1, (prep bd.1 bd.2).2]⟩ }) := by
      simp only [processDataH, hlk]
    rw [hr] at hp ⊢
    have hlen4 : (s.heap.cells ++ [(prep bd.1 bd.2).1, (prep bd.1 bd.2).2,
        (prep bd.1 bd.2).1, (prep bd.1 bd.2).2]).length = s.heap.cells.length + 4 := by
      simp
    have hpb : (p.2.1 < s.heap.cells.length ∧ p.2.2 < s.heap.cells.length) ∨
        (p.2.1 = s.heap.cells.length + 2 ∧ p.2.2 = s.heap.cells.length + 3) := by
      rcases List.mem_append.mp hp with h1 | h2
      · exact Or.inl (hv p h1)
      · have hp2 := List.mem_singleton.mp h2
        subst hp2
        exact Or.inr ⟨rfl, rfl⟩
    refine ⟨?_, ⟨?_, ?_, ?_, ?_⟩, ⟨?_, ?_⟩, ?_, ?_⟩
    · intro q hq
      rw [hlen4]
      rcases List.mem_append.mp hq with h1 | h2
      · have := hv q h1; omega
      · have hq2 := List.mem_singleton.mp h2
        subst hq2
        refine ⟨?_, ?_⟩ <;> simp
    · simp only []; omega
    · simp only []; omega
    · simp only []; omega
    · simp only []; omega
    · rw [read_write_ne _ _ _ _ (by simp only []; omega),
        read_write_ne _ _ _ _ (by simp only []; omega)]
    · rw [read_write_ne _ _ _ _ (by simp only []; omega),
        read_write_ne _ _ _ _ (by simp only []; omega)]
    · intro h
      exact Option.noConfusion h
    · intro _
      refine ⟨rfl, ?_, ?_, ?_, ?_⟩
      · exact (getD_append_add s.heap.cells _ 2).trans rfl
      · exact (getD_append_add s.heap.cells _ 3).trans rfl
      · simpa [Heap.read] using getD_append_add s.heap.cells
          [(prep bd.1 bd.2).1, (prep bd.1 bd.2).2, (prep bd.1 bd.2).1, (prep bd.1 bd.2).2] 0
      · exact (getD_append_add s.heap.cells _ 1).trans rfl
  · -- cache hit
    have hr : processDataH prep s bd =
        ((s.heap.cells.length, s.heap.cells.length + 1),
         { s with heap := ⟨s.heap.cells ++ [s.heap.read ab0.1, s.heap.read ab0.2]⟩ }) := by
      simp only [processDataH, hlk]
    rw [hr] at hp ⊢
    have hpb : p.2.1 < s.heap.cells.length ∧ p.2.2 < s.heap.cells.length := hv p hp
    have hlen2 : (s.heap.cells ++ [s.heap.read ab0.1, s.heap.read ab0.2]).length
        = s.heap.cells.length + 2 := by simp
    refine ⟨?_, ⟨?_, ?_, ?_, ?_⟩, ⟨?_, ?_⟩, ?_, ?_⟩
    · intro q hq
      rw [hlen2]
      have := hv q hq
      omega
    · simp only []; omega
    · simp only []; omega
    · simp only []; omega
    · simp only []; omega
    · rw [read_write_ne _ _ _ _ (by simp only []; omega),
        read_write_ne _ _ _ _ (by simp only []; omega)]
    · rw [read_write_ne _ _ _ _ (by simp only []; omega),
        read_write_ne _ _ _ _ (by simp only []; omega)]
    · intro h
      have hab : ab0 = ab := Option.some.inj h
      subst hab
      refine ⟨rfl, ?_, ?_⟩
      · simpa [Heap.read] using getD_append_add s.heap.cells
          [s.heap.read ab0.1, s.heap.read ab0.2] 0
      · exact (getD_append_add s.heap.cells _ 1).trans rfl
    · intro h
      exact Option.noConfusion h

/-- Concrete cache-and-heap state for the C2 witness: the key 1 is cached with its
data object at address 0 (value 10) and its label object at address 1 (value 20). -/
def c2wS : CState Nat := { cache := [(1, (0, 1))], heap := ⟨[10, 20]⟩ }

/-- Witness for C2 at a concrete cache hit: after processing key 1 and then mutating
both returned objects in place (writing 55 and 66), the cached entry still reads
10 and 20. -/
theorem c2_cache_isolation_witness :
    CacheValid c2wS ∧
    (1, (0, 1)) ∈ (processDataH (fun a b => (a + b, b)) c2wS (1, 99)).2.cache ∧
    ((((processDataH (fun a b => (a + b, b)) c2wS (1, 99)).2.heap.write
        ((processDataH (fun a b => (a + b, b)) c2wS (1, 99)).1.1) 55).write
        ((processDataH (fun a b => (a + b, b)) c2wS (1, 99)).1.2) 66).read 0 = 10 ∧
     (((processDataH (fun a b => (a + b, b)) c2wS (1, 99)).2.heap.write
        ((processDataH (fun a b => (a + b, b)) c2wS (1, 99)).1.1) 55).write
        ((processDataH (fun a b => (a + b, b)) c2wS (1, 99)).1.2) 66).read 1 = 20) := by
  have h := c2_cache_isolation (fun a b => (a + b, b)) c2wS (1, 99) (1, (0, 1)) 55 66
    (0, 1) (by unfold CacheValid; decide) (by decide)
  exact ⟨by unfold CacheValid; decide, by decide, (h.2.2.1.1).trans rfl, (h.2.2.1.2).trans rfl⟩

end Mltu
